import Mathlib

/-!
Shallow embedding of the jira-ts dashboard's core algorithms, translated from
`src/server/index.js` and `src/src/api/jira.js`.  JavaScript strings are
modelled as `List Char`; JS string operations (`split`, `join`, `trim`,
`toLowerCase`, `includes`) are defined below with JS semantics.
-/

namespace JiraTs

/-- Characters treated as whitespace by JS `String.prototype.trim`
(the common ASCII ones; all inputs in this development are ASCII). -/
def isJsSpace (c : Char) : Bool :=
  c = ' ' || c = '\t' || c = '\n' || c = '\r' || c = '\x0b' || c = '\x0c'

/-- JS `s.trim()`: drop whitespace from both ends. -/
def trimL (s : List Char) : List Char :=
  ((s.dropWhile isJsSpace).reverse.dropWhile isJsSpace).reverse

/-- JS `s.toLowerCase()` (ASCII). -/
def lowerL (s : List Char) : List Char :=
  s.map Char.toLower

/-- JS `s.split('\n')` (single-character separator). -/
def splitNl : List Char → List (List Char)
  | [] => [[]]
  | c :: rest =>
    if c = '\n' then [] :: splitNl rest
    else
      match splitNl rest with
      | [] => [[c]]
      | p :: ps => (c :: p) :: ps

/-- JS `s.split('\n\n')` (literal two-character separator, leftmost,
non-overlapping). -/
def splitTwoNl : List Char → List (List Char)
  | [] => [[]]
  | [c] => [[c]]
  | c :: d :: rest =>
    if c = '\n' ∧ d = '\n' then [] :: splitTwoNl rest
    else
      match splitTwoNl (d :: rest) with
      | [] => [[c]]
      | p :: ps => (c :: p) :: ps

/-- JS `s.split(/\n\n+/)`: split on maximal runs of two or more newlines. -/
def splitNN2plus : List Char → List (List Char)
  | [] => [[]]
  | [c] => [[c]]
  | c :: d :: rest =>
    if c = '\n' ∧ d = '\n' then [] :: splitNN2plus (rest.dropWhile (fun x => x = '\n'))
    else
      match splitNN2plus (d :: rest) with
      | [] => [[c]]
      | p :: ps => (c :: p) :: ps
termination_by l => l.length
decreasing_by
  · simp only [List.length_cons]
    have := List.Sublist.length_le (List.dropWhile_sublist (l := rest) (fun x => x = '\n'))
    omega
  · simp [List.length_cons]

/-- JS `parts.join(sep)`. -/
def joinSep (sep : List Char) : List (List Char) → List Char
  | [] => []
  | [p] => p
  | p :: q :: ps => p ++ sep ++ joinSep sep (q :: ps)

/-- JS `big.startsWith(small)` (used to define `includes`). -/
def startsWithL : List Char → List Char → Bool
  | _, [] => true
  | [], _ :: _ => false
  | c :: cs, d :: ds => c = d && startsWithL cs ds

/-- JS `big.includes(small)`: substring containment. -/
def containsSub : List Char → List Char → Bool
  | big, small =>
    startsWithL big small ||
      match big with
      | [] => false
      | _ :: rest => containsSub rest small

/-! ## ADF (Atlassian Document Format) model

A node is a JS object with a `type`, an optional `text` (modelled with `[]`
for "absent", since the code only ever reads `node.text || ''`), an optional
`content` array (`hasContent` models presence of the field: in JS an empty
array is truthy, so presence and emptiness are distinct), and optional
`attrs` fields. -/

/-- Optional `attrs` of an ADF node; `none`/`[]`/`0` model absent values,
matching the code's `attrs?.x || d` falsy-defaulting reads. -/
structure Attrs where
  level : Option Nat := none
  order : Option Nat := none
  mtext : Option (List Char) := none
  id : Option (List Char) := none
  shortName : Option (List Char) := none
  url : Option (List Char) := none
  language : Option (List Char) := none
deriving Repr, DecidableEq

inductive AdfNode where
  | mk (ntype : String) (ntext : List Char) (hasContent : Bool)
       (content : List AdfNode) (attrs : Attrs)

def AdfNode.ntype : AdfNode → String
  | .mk t _ _ _ _ => t

def AdfNode.ntext : AdfNode → List Char
  | .mk _ x _ _ _ => x

def AdfNode.hasContent : AdfNode → Bool
  | .mk _ _ h _ _ => h

def AdfNode.content : AdfNode → List AdfNode
  | .mk _ _ _ c _ => c

def AdfNode.attrs : AdfNode → Attrs
  | .mk _ _ _ _ a => a

/-- `{ type: 'text', text: s }`. -/
def txt (s : List Char) : AdfNode := .mk "text" s false [] {}

/-- `{ type: 'hardBreak' }`. -/
def hb : AdfNode := .mk "hardBreak" [] false [] {}

/-- `{ type: 'paragraph', content: c }`. -/
def para (c : List AdfNode) : AdfNode := .mk "paragraph" [] true c {}

/-- `{ type: 'doc', version: 1, content: ... }`; `content = none` models a
document object without a `content` field. -/
structure AdfDoc where
  dtype : String
  version : Nat
  content : Option (List AdfNode)

/-! ## Server-side conversion (`src/server/index.js`) -/

/-- The inline nodes of one paragraph in `buildAdfDocument`:
`paragraph.split('\n').map((line, i, a) => [text(line)] ++ (hardBreak if i < a.length-1)).flat()`. -/
def linesToInline : List (List Char) → List AdfNode
  | [] => []
  | [l] => [txt l]
  | l :: l2 :: rest => txt l :: hb :: linesToInline (l2 :: rest)

/-- `buildAdfDocument` (`src/server/index.js:296`): empty string gives an
empty document; otherwise split into paragraphs on `'\n\n'`, drop
blank-after-trim paragraphs, and emit text/hardBreak inline nodes. -/
def buildAdfDocument (text : List Char) : AdfDoc :=
  if text.isEmpty then
    ⟨"doc", 1, some []⟩
  else
    let paragraphs := (splitTwoNl text).filter (fun p => !(trimL p).isEmpty)
    ⟨"doc", 1, some (paragraphs.map (fun paragraph => para (linesToInline (splitNl paragraph))))⟩

/-- The list-level form of the server's `extractText` helper:
`content.map(extractText).join('')` concatenates per-node results; each node
yields its literal text, a newline for a hard break, the concatenation of
its children when a `content` field is present, and nothing otherwise. -/
def extractTextSList : List AdfNode → List Char
  | [] => []
  | .mk ntype ntext hasC content _ :: rest =>
    (if ntype = "text" then ntext
     else if ntype = "hardBreak" then ['\n']
     else if hasC then extractTextSList content
     else []) ++ extractTextSList rest

/-- The server's `extractText` on a single node (`src/server/index.js:330`). -/
def extractTextS (n : AdfNode) : List Char :=
  match n with
  | .mk ntype ntext hasC content _ =>
    if ntype = "text" then ntext
    else if ntype = "hardBreak" then ['\n']
    else if hasC then extractTextSList content
    else []

/-- `adfToPlainText` (`src/server/index.js:324`): guard against a missing
document or missing `content` field, then
`adfDocument.content.map(extractText).join('\n\n')`. -/
def adfToPlainText (adfDocument : Option AdfDoc) : List Char :=
  match adfDocument with
  | none => []
  | some d =>
    match d.content with
    | none => []
    | some content => joinSep ['\n', '\n'] (content.map extractTextS)

/-! ## Client-side conversion (`src/src/api/jira.js`) -/

/-- JS falsy-defaulting read `a || b` for an optional string: an absent or
empty string falls back to the default. -/
def jsOr (a : Option (List Char)) (b : List Char) : List Char :=
  match a with
  | some s => if s.isEmpty then b else s
  | none => b

/-- JS falsy-defaulting read `a || b` for an optional number (`0` is falsy). -/
def jsOrNat (a : Option Nat) (b : Nat) : Nat :=
  match a with
  | some n => if n = 0 then b else n
  | none => b

/-- The inline nodes of one paragraph in `textToADF`
(`lines.forEach`: push a text node only for nonempty lines, and a hardBreak
between consecutive lines). -/
def clientInline : List (List Char) → List AdfNode
  | [] => []
  | [l] => if l.isEmpty then [] else [txt l]
  | l :: l2 :: rest =>
    (if l.isEmpty then [] else [txt l]) ++ hb :: clientInline (l2 :: rest)

/-- `textToADF` (`src/src/api/jira.js:1417`): split on `/\n\n+/` into
paragraphs, drop blank-after-trim paragraphs, build paragraph nodes. -/
def textToADF (text : List Char) : AdfDoc :=
  if text.isEmpty then
    ⟨"doc", 1, some []⟩
  else
    let paragraphs := (splitNN2plus text).filter (fun p => !(trimL p).isEmpty)
    ⟨"doc", 1, some (paragraphs.map (fun paragraph => para (clientInline (splitNl paragraph))))⟩

mutual

/-- `extractContentText` (`src/src/api/jira.js:1271`): recursion-depth guard
(`depth > 20` yields `''`), then a `for` loop over the nodes. -/
def extractContentText (content : List AdfNode) (depth : Nat) : List Char :=
  if depth > 20 then [] else eCTLoop content depth

/-- The `for (const node of content)` accumulation in `extractContentText`. -/
def eCTLoop : List AdfNode → Nat → List Char
  | [], _ => []
  | n :: rest, depth => eCTNode n depth ++ eCTLoop rest depth

/-- The `switch (node.type)` body of `extractContentText` for one node. -/
def eCTNode : AdfNode → Nat → List Char
  | .mk ntype ntext hasC content attrs, depth =>
    if ntype = "text" then ntext
    else if ntype = "hardBreak" then ['\n']
    else if ntype = "paragraph" then
      (if hasC then extractContentText content (depth + 1) else []) ++ ['\n']
    else if ntype = "heading" then
      if hasC then
        List.replicate (jsOrNat attrs.level 1) '#' ++ ' ' ::
          (extractContentText content (depth + 1) ++ ['\n'])
      else []
    else if ntype = "bulletList" then
      if hasC then bulletLoop content depth else []
    else if ntype = "orderedList" then
      if hasC then orderedLoop content depth (jsOrNat attrs.order 1) else []
    else if ntype = "codeBlock" then
      ("```".toList ++ jsOr attrs.language [] ++ ['\n'])
        ++ (if hasC then extractContentText content (depth + 1) else [])
        ++ ('\n' :: ("```".toList ++ ['\n']))
    else if ntype = "blockquote" then
      if hasC then
        joinSep ['\n'] (((splitNl (extractContentText content (depth + 1))).filter
          (fun line => !line.isEmpty)).map (fun line => '>' :: ' ' :: line)) ++ ['\n']
      else []
    else if ntype = "rule" then '\n' :: '-' :: '-' :: '-' :: ['\n']
    else if ntype = "table" then
      if hasC then tableLoop content depth else []
    else if ntype = "mention" then jsOr attrs.mtext (jsOr attrs.id "@usuário".toList)
    else if ntype = "emoji" then jsOr attrs.shortName (jsOr attrs.mtext [])
    else if ntype = "inlineCard" || ntype = "blockCard" then
      if (jsOr attrs.url []).isEmpty then []
      else "[Link](".toList ++ jsOr attrs.url [] ++ [')']
    else if ntype = "mediaSingle" || ntype = "media" then "[Anexo]".toList
    else if hasC then extractContentText content (depth + 1)
    else []

/-- The `bulletList` inner loop over `listItem` children. -/
def bulletLoop : List AdfNode → Nat → List Char
  | [], _ => []
  | .mk t _ hc c _ :: rest, depth =>
    (if t = "listItem" && hc then
      '•' :: ' ' :: (trimL (extractContentText c (depth + 1)) ++ ['\n'])
     else []) ++ bulletLoop rest depth

/-- The `orderedList` inner loop; the numeric index increments only for
`listItem` children that have content. -/
def orderedLoop : List AdfNode → Nat → Nat → List Char
  | [], _, _ => []
  | .mk t _ hc c _ :: rest, depth, index =>
    if t = "listItem" && hc then
      ((Nat.repr index).toList ++ '.' :: ' ' ::
        (trimL (extractContentText c (depth + 1)) ++ ['\n']))
        ++ orderedLoop rest depth (index + 1)
    else orderedLoop rest depth index

/-- The `table` inner loop over `tableRow` children. -/
def tableLoop : List AdfNode → Nat → List Char
  | [], _ => []
  | .mk t _ hc c _ :: rest, depth =>
    (if t = "tableRow" && hc then
      '|' :: ' ' :: (joinSep (' ' :: '|' :: [' ']) (cellsMap c depth) ++ (' ' :: '|' :: ['\n']))
     else []) ++ tableLoop rest depth

/-- The `row.content.map(cell => ...)` of the `table` case. -/
def cellsMap : List AdfNode → Nat → List (List Char)
  | [], _ => []
  | .mk _ _ hc c _ :: rest, depth =>
    (if hc then trimL (extractContentText c (depth + 1)) else []) :: cellsMap rest depth

end

/-- The dynamic argument of `extractTextFromADF`: null/undefined, a plain
string, an object (possibly an ADF document), or an array of nodes. -/
inductive AdfInput where
  | null
  | str (s : List Char)
  | obj (d : AdfDoc)
  | arr (l : List AdfNode)

/-- `extractTextFromADF` (`src/src/api/jira.js:1238`). -/
def extractTextFromADF (adfContent : AdfInput) : List Char :=
  match adfContent with
  | .null => []
  | .str s => s
  | .obj d =>
    if d.dtype = "doc" ∧ d.content.isSome then extractContentText (d.content.getD []) 0
    else []
  | .arr l => extractContentText l 0

/-! ## Comment visibility classification (`src/src/api/jira.js`) -/

/-- `INTERNAL_VISIBILITY.roles` (`src/src/api/jira.js:145`). -/
def INTERNAL_VISIBILITY_roles : List (List Char) :=
  ["Administrators".toList, "jira-servicedesk-users".toList, "Service Desk Team".toList,
   "Agents".toList, "servicedesk-users".toList, "jira-administrators".toList,
   "atlassian-addons-admin".toList, "developers".toList]

/-- `INTERNAL_VISIBILITY.groups` (`src/src/api/jira.js:155`). -/
def INTERNAL_VISIBILITY_groups : List (List Char) :=
  ["jira-servicedesk-users".toList, "jira-administrators".toList, "servicedesk-agents".toList,
   "jira-software-users".toList, "site-admins".toList]

/-- A comment's visibility restriction; `none` fields model absent JS fields. -/
structure Visibility where
  vtype : Option (List Char)
  value : Option (List Char)

/-- The part of a Jira comment that `isInternalComment` reads. -/
structure Comment where
  visibility : Option Visibility

/-- JS falsy test for an optional string (`!x` is true for `undefined` and `''`). -/
def falsyStr : Option (List Char) → Bool
  | none => true
  | some s => s.isEmpty

/-- `isInternalComment` (`src/src/api/jira.js:1562`). -/
def isInternalComment (comment : Comment) : Bool :=
  match comment.visibility with
  | none => false
  | some vis =>
    if falsyStr vis.vtype || falsyStr vis.value then false
    else
      if vis.vtype = some "role".toList then
        INTERNAL_VISIBILITY_roles.any
          (fun role => containsSub (lowerL (vis.value.getD [])) (lowerL role))
      else if vis.vtype = some "group".toList then
        INTERNAL_VISIBILITY_groups.any
          (fun g => containsSub (lowerL (vis.value.getD [])) (lowerL g))
      else false

/-- `getCommentType` (`src/src/api/jira.js:1599`). -/
def getCommentType (comment : Comment) : String :=
  if isInternalComment comment then "internal" else "customer"

/-! ## Retry policy (`src/src/api/jira.js`) -/

/-- `REQUEST_CONFIG` (`src/src/api/jira.js:62`). -/
structure RequestConfig where
  timeout : Nat
  retryAttempts : Nat
  retryDelay : Nat
deriving DecidableEq

def REQUEST_CONFIG : RequestConfig := ⟨30000, 3, 1000⟩

/-- Outcome of one `fetch` attempt: a response, an `AbortError`
(timeout fired), or another transport error. -/
inductive FetchOutcome where
  | ok (resp : Nat)
  | abortError
  | netError (message : String)
deriving DecidableEq

/-- What `fetchWithRetry` ultimately does: return a response, throw
`RequestTimeoutError`, or rethrow the transport error. -/
inductive FetchResult where
  | ok (resp : Nat)
  | requestTimeoutError (timeout : Nat)
  | raised (message : String)
deriving DecidableEq

/-- `fetchWithRetry` (`src/src/api/jira.js:295`).  `oracle k` is the outcome
of the `k`-th `fetch` call; the function returns the result together with the
number of `fetch` calls performed and the total `setTimeout` delay waited.
An `AbortError` throws `RequestTimeoutError` at once; other errors recurse
with `retries - 1` after a `retryDelay` wait while `retries > 0`. -/
def fetchWithRetry (oracle : Nat → FetchOutcome) :
    Nat → Nat → FetchResult × Nat × Nat
  | retries, attempt =>
    match oracle attempt with
    | .ok r => (.ok r, 1, 0)
    | .abortError => (.requestTimeoutError REQUEST_CONFIG.timeout, 1, 0)
    | .netError m =>
      match retries with
      | 0 => (.raised m, 1, 0)
      | r + 1 =>
        let res := fetchWithRetry oracle r (attempt + 1)
        (res.1, res.2.1 + 1, res.2.2 + REQUEST_CONFIG.retryDelay)

/-! ## Paginated search (`src/server/index.js`) -/

/-- The error `jiraRequest` throws on a non-2xx upstream response:
a message and the upstream status code. -/
structure JiraError where
  message : String
  status : Nat
deriving DecidableEq

/-- One page of the `/search/jql` response: `issues` (defaulted to `[]`),
`isLast === true`, and an optional `nextPageToken`. -/
structure Page (α : Type) where
  issues : List α
  isLast : Bool
  nextPageToken : Option (List Char)

/-- The object `searchIssues` resolves with. -/
structure SearchResult (α : Type) where
  issues : List α
  total : Nat
  startAt : Nat
  maxResults : Nat
deriving DecidableEq

/-- The `while (!isLast)` loop of `searchIssues` (`src/server/index.js:187`),
indexed by fuel (`none` = the loop has not finished within `fuel`
iterations).  `upstream tok` models `jiraRequest('/search/jql', ...)` for a
request carrying pagination token `tok`: it either throws a `JiraError`,
returns a null body, or returns a page.  On a null body the loop breaks with
the accumulator; on a page it stops when `isLast === true`, or `!fetchAll`,
or the page has zero issues and no token; otherwise it repeats with the
page's `nextPageToken` (absent or not). -/
def searchGo {α : Type} (upstream : Option (List Char) → Except JiraError (Option (Page α)))
    (fetchAll : Bool) :
    Option (List Char) → List α → Nat → Option (Except JiraError (SearchResult α))
  | _, _, 0 => none
  | tok, allIssues, fuel + 1 =>
    match upstream tok with
    | .error e => some (.error e)
    | .ok none => some (.ok ⟨allIssues, allIssues.length, 0, allIssues.length⟩)
    | .ok (some data) =>
      let allIssues' := allIssues ++ data.issues
      if data.isLast || !fetchAll || (data.issues.isEmpty && data.nextPageToken.isNone) then
        some (.ok ⟨allIssues', allIssues'.length, 0, allIssues'.length⟩)
      else
        searchGo upstream fetchAll data.nextPageToken allIssues' fuel

/-- `searchIssues`: run the loop from no token and an empty accumulator. -/
def searchIssuesRun {α : Type}
    (upstream : Option (List Char) → Except JiraError (Option (Page α)))
    (fetchAll : Bool) (fuel : Nat) : Option (Except JiraError (SearchResult α)) :=
  searchGo upstream fetchAll none [] fuel

/-- Specification-side trace of the same loop: the list of issue pages the
loop consumes, with the same stop conditions as `searchGo`. -/
def pageTrace {α : Type} (upstream : Option (List Char) → Except JiraError (Option (Page α)))
    (fetchAll : Bool) :
    Option (List Char) → Nat → Option (Except JiraError (List (List α)))
  | _, 0 => none
  | tok, fuel + 1 =>
    match upstream tok with
    | .error e => some (.error e)
    | .ok none => some (.ok [])
    | .ok (some data) =>
      if data.isLast || !fetchAll || (data.issues.isEmpty && data.nextPageToken.isNone) then
        some (.ok [data.issues])
      else
        match pageTrace upstream fetchAll data.nextPageToken fuel with
        | none => none
        | some (.error e) => some (.error e)
        | some (.ok pages) => some (.ok (data.issues :: pages))

/-! ## Issue creation (`src/server/index.js` POST /api/issues and
`src/src/api/jira.js` createIssue) -/

/-- A request field that may arrive as a string or as an already-shaped
object (carrying its key/name/id). -/
inductive FieldVal where
  | str (s : List Char)
  | objVal (s : List Char)
deriving DecidableEq

/-- JS falsy test for such a field (`!x`: absent or empty string; objects
are always truthy). -/
def falsyFieldVal : Option FieldVal → Bool
  | none => true
  | some (.str s) => s.isEmpty
  | some (.objVal _) => false

/-- The `fields` object of a create-issue request.  `description` models a
string description (`none` = absent; non-string descriptions pass through
unconverted and play no role in the claims). -/
structure CreateFields where
  project : Option FieldVal
  issuetype : Option FieldVal
  summary : Option (List Char)
  description : Option (List Char)
  priority : Option FieldVal
  assignee : Option FieldVal
deriving DecidableEq

/-- The request body of POST /api/issues. -/
structure CreateBody where
  fields : Option CreateFields
  updateHistory : Bool
deriving DecidableEq

/-- The payload the handler would send upstream (string fields normalized
to objects, string description converted with `buildAdfDocument`). -/
structure IssuePayload where
  project : Option FieldVal
  issuetype : Option FieldVal
  summary : Option (List Char)
  description : Option AdfDoc
  priority : Option FieldVal
  assignee : Option FieldVal

/-- What the POST /api/issues handler does before `res`: answer locally with
a validation error, or issue the upstream `jiraRequest` call. -/
inductive CreateOutcome where
  | validationError (status : Nat) (error : List Char)
  | upstreamCall (endpoint : List Char) (payload : IssuePayload)

/-- `typeof x === 'string'` normalization of project/issuetype/priority/
assignee: a string becomes an object. -/
def normalizeField : Option FieldVal → Option FieldVal
  | some (.str s) => some (.objVal s)
  | v => v

/-- The POST /api/issues handler (`src/server/index.js:694`): validate
`fields`, `project`, `issuetype`, `summary` (blank or whitespace-only
rejected) in order, each failure answered locally as a 400; only then build
the payload and call upstream. -/
def createIssueHandler (body : CreateBody) : CreateOutcome :=
  match body.fields with
  | none => .validationError 400 "O campo \"fields\" é obrigatório".toList
  | some f =>
    if falsyFieldVal f.project then .validationError 400 "Projeto é obrigatório".toList
    else if falsyFieldVal f.issuetype then
      .validationError 400 "Tipo de issue é obrigatório".toList
    else if falsyStr f.summary || (trimL (f.summary.getD [])).isEmpty then
      .validationError 400 "Resumo é obrigatório".toList
    else
      .upstreamCall
        (if body.updateHistory then "/issue?updateHistory=true".toList else "/issue".toList)
        ⟨normalizeField f.project, normalizeField f.issuetype, f.summary,
         f.description.map buildAdfDocument, normalizeField f.priority,
         normalizeField f.assignee⟩

/-- What the client's `createIssue` does: throw locally, or call
`apiRequest('/issues', ...)`. -/
inductive ClientCreateResult where
  | thrown (message : String)
  | upstreamCall (endpoint : String)
deriving DecidableEq

/-- `createIssue` (`src/src/api/jira.js:748`): local validation of
`fields`, `project`, `issuetype`, `summary?.trim()` before `apiRequest`. -/
def createIssue (fields : Option CreateFields) : ClientCreateResult :=
  match fields with
  | none => .thrown "Dados da issue são obrigatórios"
  | some f =>
    if falsyFieldVal f.project then .thrown "Projeto é obrigatório"
    else if falsyFieldVal f.issuetype then .thrown "Tipo de issue é obrigatório"
    else if (trimL (f.summary.getD [])).isEmpty then .thrown "Resumo/título é obrigatório"
    else .upstreamCall "/issues"

/-! ## Label derivation (`src/server/index.js`) -/

/-- The character class `[a-z0-9_-]` kept by the top-level `emailToLabel`. -/
def isLabelChar (c : Char) : Bool :=
  ('a' ≤ c && c ≤ 'z') || ('0' ≤ c && c ≤ '9') || c = '_' || c = '-'

/-- The character class `[a-z0-9]` kept by the route-local variant. -/
def isLowerAlnum (c : Char) : Bool :=
  ('a' ≤ c && c ≤ 'z') || ('0' ≤ c && c ≤ '9')

/-- Top-level `emailToLabel` (`src/server/index.js:276`):
`` `${prefix}-${email.toLowerCase().replace(/[^a-z0-9_-]/g, '-')}` ``. -/
def emailToLabel (email : List Char) (prefixTag : List Char := "req".toList) : List Char :=
  prefixTag ++ '-' :: (lowerL email).map (fun c => if isLabelChar c then c else '-')

/-- The route's dash-run replace (regex: one or more dashes, global,
replaced by a single dash): collapse every run of dashes to one dash. -/
def collapseDashes : List Char → List Char
  | [] => []
  | c :: rest =>
    let r := collapseDashes rest
    if c = '-' ∧ r.head? = some '-' then r else c :: r

/-- The route's edge-dash replace (regex: leading dash or trailing dash,
global, replaced by nothing): drop one leading and one trailing dash. -/
def stripEdgeDashes (s : List Char) : List Char :=
  let s1 := if s.head? = some '-' then s.tail else s
  if s1.getLast? = some '-' then s1.dropLast else s1

/-- Route-local `emailToLabel` inside GET /api/tickets/user/:userEmail
(`src/server/index.js:504`): lower-case, replace `[^a-z0-9]` with `-`,
collapse dash runs, strip edge dashes. -/
def emailToLabelRoute (email : List Char) : List Char :=
  stripEdgeDashes (collapseDashes
    ((lowerL email).map (fun c => if isLowerAlnum c then c else '-')))

/-- `` labelReq = `req-${safeEmail}` `` in the same route. -/
def labelReqRoute (email : List Char) : List Char :=
  "req-".toList ++ emailToLabelRoute email

/-- Modelled from the spec (§4.4 Label-Based User Tagging): lower-case the
identifier, replace every character outside `[a-z0-9_-]` with `-`, prefix
with the fixed tag namespace "req-". -/
def specDeriveLabel (identifier : List Char) : List Char :=
  "req-".toList ++ (lowerL identifier).map (fun c => if isLabelChar c then c else '-')

/-! ## Auxiliary constructions used by the theorems -/

/-- A content wrapper node of an unrecognized type (hits the `default`
switch case / the generic `node.content` recursion). -/
def wrapNode (c : List AdfNode) : AdfNode := .mk "wrapper" [] true c {}

/-- `k` nested wrapper nodes around a node. -/
def nestWrap : Nat → AdfNode → AdfNode
  | 0, n => n
  | k + 1, n => wrapNode [nestWrap k n]

/-- A line of the round-trip input class: nonempty, letters and digits only. -/
abbrev goodLine (l : List Char) : Prop := l ≠ [] ∧ ∀ c ∈ l, c.isAlphanum = true

/-- A paragraph of the round-trip input class: a nonempty list of good lines. -/
abbrev goodPara (p : List (List Char)) : Prop := p ≠ [] ∧ ∀ l ∈ p, goodLine l

/-! # Theorems -/

/-! ## Split/join lemmas for the round-trip (C1) -/

theorem splitNl_nl (rest : List Char) : splitNl ('\n' :: rest) = [] :: splitNl rest := by
  simp [splitNl]

theorem splitNl_cons_ne (c : Char) (rest : List Char) (hc : c ≠ '\n') (p : List Char)
    (ps : List (List Char)) (h : splitNl rest = p :: ps) :
    splitNl (c :: rest) = (c :: p) :: ps := by
  simp [splitNl, hc, h]

theorem splitTwoNl_nlnl (rest : List Char) :
    splitTwoNl ('\n' :: '\n' :: rest) = [] :: splitTwoNl rest := by
  simp [splitTwoNl]

theorem splitTwoNl_cons_ne (c : Char) (rest : List Char) (hc : c ≠ '\n') (p : List Char)
    (ps : List (List Char)) (h : splitTwoNl rest = p :: ps) :
    splitTwoNl (c :: rest) = (c :: p) :: ps := by
  cases rest with
  | nil =>
    have h' : ([[]] : List (List Char)) = p :: ps := h
    injection h' with h1 h2
    subst h1; subst h2
    simp [splitTwoNl]
  | cons d rest' => simp [splitTwoNl, hc, h]

theorem splitTwoNl_nl_cons (rest : List Char) (hr : rest.head? ≠ some '\n') (p : List Char)
    (ps : List (List Char)) (hs : splitTwoNl rest = p :: ps) :
    splitTwoNl ('\n' :: rest) = ('\n' :: p) :: ps := by
  cases rest with
  | nil =>
    have h' : ([[]] : List (List Char)) = p :: ps := hs
    injection h' with h1 h2
    subst h1; subst h2
    simp [splitTwoNl]
  | cons d rest' =>
    have hd : d ≠ '\n' := by intro h; apply hr; simp [h]
    simp [splitTwoNl, hd, hs]

theorem splitNl_prepend (l : List Char) (hl : ∀ c ∈ l, c ≠ '\n') (s : List Char)
    (p : List Char) (ps : List (List Char)) (h : splitNl s = p :: ps) :
    splitNl (l ++ s) = (l ++ p) :: ps := by
  induction l with
  | nil => simpa using h
  | cons c l ih =>
    have hc : c ≠ '\n' := hl c (by simp)
    have ih' := ih (fun d hd => hl d (by simp [hd]))
    simpa using splitNl_cons_ne c (l ++ s) hc (l ++ p) ps ih'

theorem splitTwoNl_prepend (l : List Char) (hl : ∀ c ∈ l, c ≠ '\n') (s : List Char)
    (p : List Char) (ps : List (List Char)) (h : splitTwoNl s = p :: ps) :
    splitTwoNl (l ++ s) = (l ++ p) :: ps := by
  induction l with
  | nil => simpa using h
  | cons c l ih =>
    have hc : c ≠ '\n' := hl c (by simp)
    have ih' := ih (fun d hd => hl d (by simp [hd]))
    simpa using splitTwoNl_cons_ne c (l ++ s) hc (l ++ p) ps ih'

theorem alnum_ne_nl (c : Char) (h : c.isAlphanum = true) : c ≠ '\n' := by
  rintro rfl
  exact absurd h (by decide)

theorem alnum_not_space (c : Char) (h : c.isAlphanum = true) : isJsSpace c = false := by
  by_contra hc
  have hs : isJsSpace c = true := by revert hc; cases isJsSpace c <;> simp
  have : ((((c = ' ' ∨ c = '\t') ∨ c = '\n') ∨ c = '\r') ∨ c = '\x0b') ∨ c = '\x0c' := by
    simpa [isJsSpace] using hs
  rcases this with ((((rfl | rfl) | rfl) | rfl) | rfl) | rfl <;> exact absurd h (by decide)

theorem joinSep_cons_ex (sep : List Char) (x : List Char) (xs : List (List Char)) :
    ∃ t, joinSep sep (x :: xs) = x ++ t := by
  cases xs with
  | nil => exact ⟨[], by simp [joinSep]⟩
  | cons y ys => exact ⟨sep ++ joinSep sep (y :: ys), by simp [joinSep]⟩

theorem goodPara_head (p : List (List Char)) (hp : goodPara p) :
    ∃ c t, joinSep ['\n'] p = c :: t ∧ c.isAlphanum = true := by
  obtain ⟨hne, hl⟩ := hp
  cases p with
  | nil => exact absurd rfl hne
  | cons l rest =>
    obtain ⟨t, ht⟩ := joinSep_cons_ex ['\n'] l rest
    obtain ⟨hlne, hlc⟩ := hl l (by simp)
    cases l with
    | nil => exact absurd rfl hlne
    | cons c l' =>
      exact ⟨c, l' ++ t, by simp [ht], hlc c (by simp)⟩

theorem trimL_ne_nil (l : List Char) (c : Char) (hc : c ∈ l) (hcs : isJsSpace c = false) :
    trimL l ≠ [] := by
  intro h
  unfold trimL at h
  have h2 : ((l.dropWhile isJsSpace).reverse.dropWhile isJsSpace) = [] := by
    simpa using congrArg List.reverse h
  have h3 : ∀ x ∈ (l.dropWhile isJsSpace).reverse, isJsSpace x = true :=
    List.dropWhile_eq_nil_iff.mp h2
  have h4 : ∀ x ∈ l.dropWhile isJsSpace, isJsSpace x = true := by
    intro x hx
    exact h3 x (by simpa using hx)
  have h5 : c ∈ l.takeWhile isJsSpace ++ l.dropWhile isJsSpace := by
    rw [List.takeWhile_append_dropWhile]
    exact hc
  rcases List.mem_append.mp h5 with h6 | h6
  · exact absurd (List.mem_takeWhile_imp h6) (by simp [hcs])
  · exact absurd (h4 c h6) (by simp [hcs])

theorem goodLine_noNl (l : List Char) (h : goodLine l) : ∀ c ∈ l, c ≠ '\n' :=
  fun c hc => alnum_ne_nl c (h.2 c hc)

theorem splitTwoNl_join_sep (lines : List (List Char)) (h : ∀ l ∈ lines, goodLine l)
    (s : List Char) :
    splitTwoNl (joinSep ['\n'] lines ++ '\n' :: '\n' :: s) =
      joinSep ['\n'] lines :: splitTwoNl s := by
  induction lines with
  | nil => simpa [joinSep] using splitTwoNl_nlnl s
  | cons l rest ih =>
    cases rest with
    | nil =>
      have h0 : splitTwoNl ('\n' :: '\n' :: s) = [] :: splitTwoNl s := splitTwoNl_nlnl s
      have := splitTwoNl_prepend l (goodLine_noNl l (h l (by simp))) ('\n' :: '\n' :: s)
        [] (splitTwoNl s) h0
      simpa [joinSep] using this
    | cons l2 rest2 =>
      have hih := ih (fun x hx => h x (by simp [hx]))
      obtain ⟨c, t, hct, hcal⟩ := goodPara_head (l2 :: rest2)
        ⟨by simp, fun x hx => h x (by simp [hx])⟩
      have hhead : (joinSep ['\n'] (l2 :: rest2) ++ '\n' :: '\n' :: s).head? ≠ some '\n' := by
        rw [hct]
        simp
        exact alnum_ne_nl c hcal
      have h2 := splitTwoNl_nl_cons (joinSep ['\n'] (l2 :: rest2) ++ '\n' :: '\n' :: s)
        hhead (joinSep ['\n'] (l2 :: rest2)) (splitTwoNl s) hih
      have h3 := splitTwoNl_prepend l (goodLine_noNl l (h l (by simp)))
        ('\n' :: (joinSep ['\n'] (l2 :: rest2) ++ '\n' :: '\n' :: s))
        ('\n' :: joinSep ['\n'] (l2 :: rest2)) (splitTwoNl s) h2
      calc splitTwoNl (joinSep ['\n'] (l :: l2 :: rest2) ++ '\n' :: '\n' :: s)
          = splitTwoNl (l ++ ('\n' :: (joinSep ['\n'] (l2 :: rest2) ++ '\n' :: '\n' :: s))) := by
            simp [joinSep]
        _ = (l ++ '\n' :: joinSep ['\n'] (l2 :: rest2)) :: splitTwoNl s := h3
        _ = joinSep ['\n'] (l :: l2 :: rest2) :: splitTwoNl s := by simp [joinSep]

theorem splitTwoNl_join_last (lines : List (List Char)) (h : ∀ l ∈ lines, goodLine l) :
    splitTwoNl (joinSep ['\n'] lines) = [joinSep ['\n'] lines] ∨ lines = [] := by
  induction lines with
  | nil => exact Or.inr rfl
  | cons l rest ih =>
    apply Or.inl
    cases rest with
    | nil =>
      have h0 : splitTwoNl ([] : List Char) = [] :: [] := by simp [splitTwoNl]
      have := splitTwoNl_prepend l (goodLine_noNl l (h l (by simp))) [] [] [] h0
      simpa [joinSep] using this
    | cons l2 rest2 =>
      have hih : splitTwoNl (joinSep ['\n'] (l2 :: rest2)) = [joinSep ['\n'] (l2 :: rest2)] := by
        rcases ih (fun x hx => h x (by simp [hx])) with h' | h'
        · exact h'
        · exact absurd h' (by simp)
      obtain ⟨c, t, hct, hcal⟩ := goodPara_head (l2 :: rest2)
        ⟨by simp, fun x hx => h x (by simp [hx])⟩
      have hhead : (joinSep ['\n'] (l2 :: rest2)).head? ≠ some '\n' := by
        rw [hct]
        simp
        exact alnum_ne_nl c hcal
      have h2 := splitTwoNl_nl_cons (joinSep ['\n'] (l2 :: rest2)) hhead
        (joinSep ['\n'] (l2 :: rest2)) [] hih
      have h3 := splitTwoNl_prepend l (goodLine_noNl l (h l (by simp)))
        ('\n' :: joinSep ['\n'] (l2 :: rest2))
        ('\n' :: joinSep ['\n'] (l2 :: rest2)) [] h2
      calc splitTwoNl (joinSep ['\n'] (l :: l2 :: rest2))
          = splitTwoNl (l ++ ('\n' :: joinSep ['\n'] (l2 :: rest2))) := by simp [joinSep]
        _ = (l ++ '\n' :: joinSep ['\n'] (l2 :: rest2)) :: [] := h3
        _ = [joinSep ['\n'] (l :: l2 :: rest2)] := by simp [joinSep]

theorem splitTwoNl_joined (ps : List (List (List Char))) (h : ∀ p ∈ ps, goodPara p)
    (hne : ps ≠ []) :
    splitTwoNl (joinSep ['\n', '\n'] (ps.map (joinSep ['\n']))) = ps.map (joinSep ['\n']) := by
  induction ps with
  | nil => exact absurd rfl hne
  | cons p rest ih =>
    cases rest with
    | nil =>
      rcases splitTwoNl_join_last p (h p (by simp)).2 with h' | h'
      · simpa [joinSep] using h'
      · exact absurd h' (h p (by simp)).1
    | cons p2 rest2 =>
      have hih := ih (fun x hx => h x (by simp [hx])) (by simp)
      have h1 := splitTwoNl_join_sep p (h p (by simp)).2
        (joinSep ['\n', '\n'] ((p2 :: rest2).map (joinSep ['\n'])))
      calc splitTwoNl (joinSep ['\n', '\n'] ((p :: p2 :: rest2).map (joinSep ['\n'])))
          = splitTwoNl (joinSep ['\n'] p ++ '\n' :: '\n' ::
              joinSep ['\n', '\n'] ((p2 :: rest2).map (joinSep ['\n']))) := by
            simp [joinSep]
        _ = joinSep ['\n'] p ::
              splitTwoNl (joinSep ['\n', '\n'] ((p2 :: rest2).map (joinSep ['\n']))) := h1
        _ = (p :: p2 :: rest2).map (joinSep ['\n']) := by rw [hih]; simp

theorem splitNl_joined (lines : List (List Char)) (h : ∀ l ∈ lines, goodLine l)
    (hne : lines ≠ []) : splitNl (joinSep ['\n'] lines) = lines := by
  induction lines with
  | nil => exact absurd rfl hne
  | cons l rest ih =>
    cases rest with
    | nil =>
      have h0 : splitNl ([] : List Char) = [] :: [] := by simp [splitNl]
      have := splitNl_prepend l (goodLine_noNl l (h l (by simp))) [] [] [] h0
      simpa [joinSep] using this
    | cons l2 rest2 =>
      have hih := ih (fun x hx => h x (by simp [hx])) (by simp)
      have h1 : splitNl ('\n' :: joinSep ['\n'] (l2 :: rest2)) = [] :: l2 :: rest2 := by
        rw [splitNl_nl, hih]
      have h2 := splitNl_prepend l (goodLine_noNl l (h l (by simp)))
        ('\n' :: joinSep ['\n'] (l2 :: rest2)) [] (l2 :: rest2) h1
      calc splitNl (joinSep ['\n'] (l :: l2 :: rest2))
          = splitNl (l ++ ('\n' :: joinSep ['\n'] (l2 :: rest2))) := by simp [joinSep]
        _ = (l ++ []) :: l2 :: rest2 := h2
        _ = l :: l2 :: rest2 := by simp

theorem extractTextSList_linesToInline (lines : List (List Char)) :
    extractTextSList (linesToInline lines) = joinSep ['\n'] lines := by
  induction lines with
  | nil => simp [linesToInline, extractTextSList, joinSep]
  | cons l rest ih =>
    cases rest with
    | nil => simp [linesToInline, extractTextSList, joinSep, txt]
    | cons l2 rest2 =>
      rw [show linesToInline (l :: l2 :: rest2) = txt l :: hb :: linesToInline (l2 :: rest2)
        from rfl]
      rw [show joinSep ['\n'] (l :: l2 :: rest2) = l ++ ['\n'] ++ joinSep ['\n'] (l2 :: rest2)
        from rfl]
      simp [extractTextSList, txt, hb, ih]

theorem extractTextS_para (c : List AdfNode) : extractTextS (para c) = extractTextSList c := by
  simp [extractTextS, para]

/-! ## Claim C1 -/

/-- Claim C1, counterexample: the claim asserts the round-trip for the client
pair `textToADF`/`extractTextFromADF` as well, but that pair already fails on
the one-character input "a": the client document-to-text conversion appends a
newline after every paragraph, so the round-trip yields "a\n", not "a". -/
theorem c1_counterexample :
    extractTextFromADF (.obj (textToADF ['a'])) = ['a', '\n'] ∧
      extractTextFromADF (.obj (textToADF ['a'])) ≠ ['a'] := by
  have h : extractTextFromADF (.obj (textToADF ['a'])) = ['a', '\n'] := by
    simp [textToADF, extractTextFromADF, splitNN2plus, trimL, isJsSpace, splitNl,
      clientInline, para, txt, extractContentText, eCTLoop, eCTNode]
  exact ⟨h, by simp [h]⟩

/-- Claim C1 (amended): the round-trip `document_to_text(text_to_document(t))
== t` holds for the server pair `buildAdfDocument`/`adfToPlainText` on every
plain-text input `t` built from blank-line-separated paragraphs of nonempty
alphanumeric lines; the client pair `textToADF`/`extractTextFromADF` does not
round-trip (it appends a newline per paragraph, see the counterexample). -/
theorem c1_server_roundtrip (ps : List (List (List Char))) (hps : ∀ p ∈ ps, goodPara p) :
    adfToPlainText (some (buildAdfDocument (joinSep ['\n', '\n'] (ps.map (joinSep ['\n']))))) =
      joinSep ['\n', '\n'] (ps.map (joinSep ['\n'])) := by
  cases ps with
  | nil => simp [joinSep, buildAdfDocument, adfToPlainText]
  | cons p rest =>
    obtain ⟨c, t0, hct, hcal⟩ := goodPara_head p (hps p (by simp))
    obtain ⟨t1, ht1⟩ := joinSep_cons_ex ['\n', '\n'] (joinSep ['\n'] p)
      (rest.map (joinSep ['\n']))
    have htext : joinSep ['\n', '\n'] ((p :: rest).map (joinSep ['\n'])) = c :: (t0 ++ t1) := by
      simp only [List.map_cons] at ht1 ⊢
      rw [ht1, hct]
      simp
    have hne : (joinSep ['\n', '\n'] ((p :: rest).map (joinSep ['\n']))).isEmpty = false := by
      rw [htext]; rfl
    rw [buildAdfDocument, if_neg (by rw [hne]; simp)]
    rw [adfToPlainText]
    simp only
    rw [splitTwoNl_joined (p :: rest) hps (by simp)]
    have hfilter : ((p :: rest).map (joinSep ['\n'])).filter (fun q => !(trimL q).isEmpty) =
        (p :: rest).map (joinSep ['\n']) := by
      rw [List.filter_eq_self]
      intro a ha
      obtain ⟨q, hq, rfl⟩ := List.mem_map.mp ha
      obtain ⟨cq, tq, hcq, hcqal⟩ := goodPara_head q (hps q hq)
      have : trimL (joinSep ['\n'] q) ≠ [] := by
        apply trimL_ne_nil _ cq
        · rw [hcq]; simp
        · exact alnum_not_space cq hcqal
      simpa using this
    rw [hfilter]
    rw [List.map_map, List.map_map]
    congr 1
    apply List.map_congr_left
    intro q hq
    simp only [Function.comp]
    rw [splitNl_joined q (hps q hq).2 (hps q hq).1]
    rw [extractTextS_para, extractTextSList_linesToInline]

/-- Claim C1, witness: the amended round-trip at the concrete input
"hi\nyo\n\na" (two paragraphs, the first with two lines). -/
theorem c1_witness :
    adfToPlainText (some (buildAdfDocument (joinSep ['\n', '\n']
        (([[['h', 'i'], ['y', 'o']], [['a']]]).map (joinSep ['\n']))))) =
      joinSep ['\n', '\n'] (([[['h', 'i'], ['y', 'o']], [['a']]]).map (joinSep ['\n'])) :=
  c1_server_roundtrip [[['h', 'i'], ['y', 'o']], [['a']]] (by decide)


theorem extractTextSList_singleton (n : AdfNode) : extractTextSList [n] = extractTextS n := by
  cases n
  simp [extractTextSList, extractTextS]

theorem extractTextS_nestWrap (k : Nat) (s : List Char) :
    extractTextS (nestWrap k (txt s)) = s := by
  induction k with
  | zero => simp [nestWrap, extractTextS, txt]
  | succ k ih =>
    rw [show nestWrap (k + 1) (txt s) = wrapNode [nestWrap k (txt s)] from rfl]
    rw [show extractTextS (wrapNode [nestWrap k (txt s)]) =
      extractTextSList [nestWrap k (txt s)] by simp [extractTextS, wrapNode]]
    rw [extractTextSList_singleton, ih]

theorem extractContentText_guard (content : List AdfNode) (depth : Nat) (h : 20 < depth) :
    extractContentText content depth = [] := by
  rw [extractContentText]
  simp [h]

theorem extractContentText_nestWrap (k : Nat) (s : List Char) :
    ∀ depth, 21 ≤ depth + k → extractContentText [nestWrap k (txt s)] depth = [] := by
  induction k with
  | zero => exact fun d hd => extractContentText_guard _ _ (by omega)
  | succ k ih =>
    intro d hd
    by_cases hd20 : 20 < d
    · exact extractContentText_guard _ _ hd20
    · rw [extractContentText, if_neg (by omega)]
      rw [show nestWrap (k + 1) (txt s) = wrapNode [nestWrap k (txt s)] from rfl]
      have hrec := ih (d + 1) (by omega)
      simp [eCTLoop, eCTNode, wrapNode, hrec]



/-- Claim C4, counterexample. -/
theorem c4_counterexample :
    adfToPlainText (some ⟨"doc", 1, some [nestWrap 25 (txt ['x'])]⟩) = ['x'] ∧
      (['x'] : List Char) ≠ [] ∧
      extractTextFromADF (.obj ⟨"doc", 1, some [nestWrap 25 (txt ['x'])]⟩) = [] := by
  refine ⟨?_, by simp, ?_⟩
  · simpa [adfToPlainText, joinSep] using extractTextS_nestWrap 25 ['x']
  · have h := extractContentText_nestWrap 25 ['x'] 0 (by omega)
    simpa [extractTextFromADF] using h

/-- Claim C4 (amended). -/
theorem c4_amended :
    (∀ (content : List AdfNode) (depth : Nat), 20 < depth →
      extractContentText content depth = []) ∧
    (∀ (k : Nat) (s : List Char),
      adfToPlainText (some ⟨"doc", 1, some [nestWrap k (txt s)]⟩) = s) := by
  refine ⟨fun content depth h => extractContentText_guard content depth h, fun k s => ?_⟩
  simpa [adfToPlainText, joinSep] using extractTextS_nestWrap k s

/-- Claim C4, witness. -/
theorem c4_witness :
    extractContentText [txt ['z']] 21 = [] ∧
      adfToPlainText (some ⟨"doc", 1, some [nestWrap 25 (txt ['x'])]⟩) = ['x'] :=
  ⟨c4_amended.1 [txt ['z']] 21 (by omega), c4_amended.2 25 ['x']⟩



theorem searchGo_const_not_last (tok : Option (List Char)) (acc : List Nat) (fuel : Nat) :
    searchGo (fun _ => Except.ok (some ⟨[0], false, none⟩)) true tok acc fuel = none := by
  induction fuel generalizing tok acc with
  | zero => rfl
  | succ fuel ih => simp [searchGo, ih]

/-- Claim C2, counterexample. -/
theorem c2_counterexample :
    ¬ ∃ fuel, (searchIssuesRun (α := Nat)
        (fun _ => Except.ok (some ⟨[0], false, none⟩)) true fuel).isSome := by
  rintro ⟨fuel, hf⟩
  rw [searchIssuesRun, searchGo_const_not_last] at hf
  simp at hf

/-- Claim C2 (amended). -/
theorem c2_amended {α : Type}
    (upstream : Option (List Char) → Except JiraError (Option (Page α)))
    (fetchAll : Bool) (tok : Option (List Char)) (acc : List α) (fuel : Nat)
    (page : Page α) (h : upstream tok = .ok (some page)) :
    (page.isLast = true ∨ fetchAll = false ∨
        (page.issues = [] ∧ page.nextPageToken = none) →
      searchGo upstream fetchAll tok acc (fuel + 1) =
        some (.ok ⟨acc ++ page.issues, (acc ++ page.issues).length, 0,
          (acc ++ page.issues).length⟩)) ∧
    (page.isLast = false → fetchAll = true →
        ¬(page.issues = [] ∧ page.nextPageToken = none) →
      searchGo upstream fetchAll tok acc (fuel + 1) =
        searchGo upstream fetchAll page.nextPageToken (acc ++ page.issues) fuel) ∧
    ((∀ t p, upstream t = Except.ok (some p) → p.isLast = true) →
      (searchGo upstream fetchAll tok acc 1).isSome = true) := by
  refine ⟨?_, ?_, ?_⟩
  · rintro (h1 | h1 | ⟨h1, h2⟩)
    · simp [searchGo, h, h1]
    · simp [searchGo, h, h1]
    · simp [searchGo, h, h1, h2]
  · intro h1 h2 h3
    have hcond : (page.issues.isEmpty && page.nextPageToken.isNone) = false := by
      rcases not_and_or.mp h3 with h4 | h4
      · simp [h4]
      · have h5 : page.nextPageToken.isNone = false := by
          cases hp : page.nextPageToken
          · exact absurd hp h4
          · rfl
        simp [h5]
    simp [searchGo, h, h1, h2, hcond]
  · intro hlast
    simp [searchGo, h, hlast tok page h]

/-- Claim C2, witness. -/
theorem c2_witness :
    searchGo (α := Nat) (fun _ => Except.ok (some ⟨[5], true, none⟩)) true none [] 4 =
      some (.ok ⟨[5], 1, 0, 1⟩) := by
  have h := (c2_amended (α := Nat) (fun _ => Except.ok (some ⟨[5], true, none⟩))
    true none [] 3 ⟨[5], true, none⟩ rfl).1 (Or.inl rfl)
  simpa using h



/-- Claim C3. -/
theorem c3_concat {α : Type}
    (upstream : Option (List Char) → Except JiraError (Option (Page α)))
    (fetchAll : Bool) (tok : Option (List Char)) (acc : List α) (fuel : Nat)
    (r : SearchResult α)
    (h : searchGo upstream fetchAll tok acc fuel = some (.ok r)) :
    ∃ pages, pageTrace upstream fetchAll tok fuel = some (.ok pages) ∧
      r.issues = acc ++ pages.flatten ∧
      r.total = acc.length + (pages.map List.length).sum ∧
      r.total = r.issues.length ∧
      r.startAt = 0 := by
  induction fuel generalizing tok acc with
  | zero => simp [searchGo] at h
  | succ fuel ih =>
    cases hu : upstream tok with
    | error e =>
      rw [searchGo] at h
      simp [hu] at h
    | ok od =>
      cases od with
      | none =>
        rw [searchGo] at h
        simp only [hu] at h
        injection h with h'
        injection h' with h''
        refine ⟨[], by simp [pageTrace, hu], ?_, ?_, ?_, ?_⟩ <;> simp [← h'']
      | some data =>
        by_cases hstop :
            (data.isLast || !fetchAll || (data.issues.isEmpty && data.nextPageToken.isNone)) = true
        · rw [searchGo] at h
          simp only [hu, hstop, if_pos] at h
          injection h with h'
          injection h' with h''
          refine ⟨[data.issues], by simp [pageTrace, hu, hstop], ?_, ?_, ?_, ?_⟩ <;>
            simp [← h'']
        · rw [searchGo] at h
          simp only [hu, hstop, if_neg, Bool.not_eq_true] at h
          have hstop' : (data.isLast || !fetchAll ||
              (data.issues.isEmpty && data.nextPageToken.isNone)) = false := by
            revert hstop
            cases data.isLast || !fetchAll || (data.issues.isEmpty && data.nextPageToken.isNone) <;>
              simp
          obtain ⟨pages, htr, hiss, htot, hlen, hsa⟩ := ih data.nextPageToken (acc ++ data.issues) h
          refine ⟨data.issues :: pages, ?_, ?_, ?_, hlen, hsa⟩
          · rw [pageTrace]
            simp only [hu, hstop', Bool.false_eq_true, if_false, htr]
          · simpa using hiss
          · simpa [Nat.add_assoc] using htot
  


/-- Claim C3, witness. -/
theorem c3_witness :
    searchIssuesRun (α := Nat) (fun _ => Except.ok (some ⟨[], false, none⟩)) true 1 =
      some (.ok ⟨[], 0, 0, 0⟩) ∧
    ∃ pages, pageTrace (α := Nat) (fun _ => Except.ok (some ⟨[], false, none⟩)) true none 1 =
      some (.ok pages) ∧ ([] : List Nat) = [] ++ pages.flatten := by
  refine ⟨by rfl, ?_⟩
  obtain ⟨pages, htr, hiss, _⟩ := c3_concat (α := Nat)
    (fun _ => Except.ok (some ⟨[], false, none⟩)) true none [] 1 ⟨[], 0, 0, 0⟩ (by rfl)
  exact ⟨pages, htr, by simpa using hiss⟩

/-- Claim C7. -/
theorem c7_error_propagation {α : Type}
    (upstream : Option (List Char) → Except JiraError (Option (Page α))) (fetchAll : Bool) :
    (∀ tok acc fuel e, upstream tok = .error e →
      searchGo upstream fetchAll tok acc (fuel + 1) = some (.error e)) ∧
    (∀ tok acc fuel e, searchGo upstream fetchAll tok acc fuel = some (.error e) →
      ∃ t, upstream t = .error e) := by
  constructor
  · intro tok acc fuel e he
    simp [searchGo, he]
  · intro tok acc fuel
    induction fuel generalizing tok acc with
    | zero => intro e h; simp [searchGo] at h
    | succ fuel ih =>
      intro e h
      cases hu : upstream tok with
      | error e' =>
        rw [searchGo] at h
        simp only [hu] at h
        injection h with h'
        injection h' with h''
        exact ⟨tok, by rw [hu, h'']⟩
      | ok od =>
        cases od with
        | none =>
          rw [searchGo] at h
          simp [hu] at h
        | some data =>
          rw [searchGo] at h
          simp only [hu] at h
          by_cases hstop :
              (data.isLast || !fetchAll || (data.issues.isEmpty && data.nextPageToken.isNone)) = true
          · rw [if_pos hstop] at h
            simp at h
          · rw [if_neg hstop] at h
            exact ih data.nextPageToken (acc ++ data.issues) e h

/-- Claim C7, witness. -/
theorem c7_witness :
    searchGo (α := Nat) (fun _ => Except.error ⟨"Jira API Error: boom", 500⟩) true
        none [1, 2, 3] 1 =
      some (.error ⟨"Jira API Error: boom", 500⟩) :=
  (c7_error_propagation (α := Nat) (fun _ => Except.error ⟨"Jira API Error: boom", 500⟩)
    true).1 none [1, 2, 3] 0 ⟨"Jira API Error: boom", 500⟩ rfl



theorem startsWithL_iff (small big : List Char) :
    startsWithL big small = true ↔ ∃ rest, big = small ++ rest := by
  induction small generalizing big with
  | nil => simp [startsWithL]
  | cons d ds ih =>
    cases big with
    | nil => simp [startsWithL]
    | cons c cs =>
      rw [show startsWithL (c :: cs) (d :: ds) = (decide (c = d) && startsWithL cs ds) from rfl]
      simp only [Bool.and_eq_true, decide_eq_true_eq, ih]
      constructor
      · rintro ⟨rfl, rest, rfl⟩
        exact ⟨rest, rfl⟩
      · rintro ⟨rest, hr⟩
        injection hr with h1 h2
        exact ⟨h1, rest, h2⟩

theorem containsSub_iff (big small : List Char) :
    containsSub big small = true ↔ ∃ pre post, big = pre ++ small ++ post := by
  induction big with
  | nil =>
    rw [containsSub]
    simp only [Bool.or_eq_true, startsWithL_iff]
    constructor
    · rintro (⟨rest, h⟩ | h)
      · exact ⟨[], rest, by simpa using h⟩
      · simp at h
    · rintro ⟨pre, post, h⟩
      have h' := List.append_eq_nil.mp h.symm
      have h'' := List.append_eq_nil.mp h'.1
      exact Or.inl ⟨post, by simp [h'.2, h''.1, h''.2]⟩
  | cons c cs ih =>
    rw [containsSub]
    simp only [Bool.or_eq_true, startsWithL_iff, ih]
    constructor
    · rintro (⟨rest, h⟩ | ⟨pre, post, h⟩)
      · exact ⟨[], rest, by simpa using h⟩
      · exact ⟨c :: pre, post, by simp [h]⟩
    · rintro ⟨pre, post, h⟩
      cases pre with
      | nil => exact Or.inl ⟨post, by simpa using h⟩
      | cons x xs =>
        injection h with h1 h2
        exact Or.inr ⟨xs, post, h2⟩



theorem lowerL_eq_nil (v : List Char) : lowerL v = [] ↔ v = [] := by
  simp [lowerL]

/-- Claim C5. -/
theorem c5_classification :
    (∀ comment : Comment, comment.visibility = none → isInternalComment comment = false) ∧
    (∀ v e pre post, e ∈ INTERNAL_VISIBILITY_roles → lowerL v = pre ++ lowerL e ++ post →
      isInternalComment ⟨some ⟨some "role".toList, some v⟩⟩ = true) ∧
    (∀ v e pre post, e ∈ INTERNAL_VISIBILITY_groups → lowerL v = pre ++ lowerL e ++ post →
      isInternalComment ⟨some ⟨some "group".toList, some v⟩⟩ = true) ∧
    (∀ v, (∀ e ∈ INTERNAL_VISIBILITY_roles, ∀ pre post, lowerL v ≠ pre ++ lowerL e ++ post) →
      isInternalComment ⟨some ⟨some "role".toList, some v⟩⟩ = false) ∧
    (∀ v, (∀ e ∈ INTERNAL_VISIBILITY_groups, ∀ pre post, lowerL v ≠ pre ++ lowerL e ++ post) →
      isInternalComment ⟨some ⟨some "group".toList, some v⟩⟩ = false) ∧
    (∀ v e, e ∈ INTERNAL_VISIBILITY_roles → lowerL v = lowerL e →
      isInternalComment ⟨some ⟨some "role".toList, some v⟩⟩ = true) := by
  have hroles_ne : ∀ e ∈ INTERNAL_VISIBILITY_roles, e ≠ [] := by decide
  have hgroups_ne : ∀ e ∈ INTERNAL_VISIBILITY_groups, e ≠ [] := by decide
  have hrole : ∀ v e pre post, e ∈ INTERNAL_VISIBILITY_roles →
      lowerL v = pre ++ lowerL e ++ post →
      isInternalComment ⟨some ⟨some "role".toList, some v⟩⟩ = true := by
    intro v e pre post he hm
    have hv : v ≠ [] := by
      intro hv
      subst hv
      simp only [lowerL, List.map_nil] at hm
      have h' := List.append_eq_nil.mp hm.symm
      have h'' := List.append_eq_nil.mp h'.1
      exact hroles_ne e he ((lowerL_eq_nil e).mp h''.2)
    simp only [isInternalComment, falsyStr]
    rw [if_neg (by simp [List.isEmpty_iff, hv])]
    simp only [if_true, Option.getD_some]
    rw [List.any_eq_true]
    exact ⟨e, he, by simpa using (containsSub_iff (lowerL v) (lowerL e)).mpr ⟨pre, post, hm⟩⟩
  have hgroup : ∀ v e pre post, e ∈ INTERNAL_VISIBILITY_groups →
      lowerL v = pre ++ lowerL e ++ post →
      isInternalComment ⟨some ⟨some "group".toList, some v⟩⟩ = true := by
    intro v e pre post he hm
    have hv : v ≠ [] := by
      intro hv
      subst hv
      simp only [lowerL, List.map_nil] at hm
      have h' := List.append_eq_nil.mp hm.symm
      have h'' := List.append_eq_nil.mp h'.1
      exact hgroups_ne e he ((lowerL_eq_nil e).mp h''.2)
    simp only [isInternalComment, falsyStr]
    rw [if_neg (by simp [List.isEmpty_iff, hv])]
    rw [if_neg (by decide)]
    simp only [if_true, Option.getD_some]
    rw [List.any_eq_true]
    exact ⟨e, he, by simpa using (containsSub_iff (lowerL v) (lowerL e)).mpr ⟨pre, post, hm⟩⟩
  refine ⟨?_, hrole, hgroup, ?_, ?_, ?_⟩
  · intro comment h
    simp [isInternalComment, h]
  · intro v hno
    by_cases hv : v = []
    · subst hv
      simp [isInternalComment, falsyStr]
    · simp only [isInternalComment, falsyStr]
      rw [if_neg (by simp [List.isEmpty_iff, hv])]
      simp only [if_true, Option.getD_some]
      rw [List.any_eq_false]
      intro e he
      have : ¬ (containsSub (lowerL v) (lowerL e) = true) := by
        rw [containsSub_iff]
        rintro ⟨pre, post, hm⟩
        exact hno e he pre post hm
      simpa using this
  · intro v hno
    by_cases hv : v = []
    · subst hv
      simp [isInternalComment, falsyStr]
    · simp only [isInternalComment, falsyStr]
      rw [if_neg (by simp [List.isEmpty_iff, hv])]
      rw [if_neg (by decide)]
      simp only [if_true, Option.getD_some]
      rw [List.any_eq_false]
      intro e he
      have : ¬ (containsSub (lowerL v) (lowerL e) = true) := by
        rw [containsSub_iff]
        rintro ⟨pre, post, hm⟩
        exact hno e he pre post hm
      simpa using this
  · intro v e he hm
    exact hrole v e [] [] he (by simpa using hm)

/-- Claim C5, witness. -/
theorem c5_witness :
    isInternalComment ⟨some ⟨some "role".toList, some "ADMINISTRATORS".toList⟩⟩ = true :=
  c5_classification.2.2.2.2.2 "ADMINISTRATORS".toList "Administrators".toList
    (by decide) (by decide)

/-- Claim C10. -/
theorem c10_fail_open :
    (∀ t v, t ≠ "role".toList → t ≠ "group".toList →
      isInternalComment ⟨some ⟨some t, some v⟩⟩ = false) ∧
    (∀ ov, isInternalComment ⟨some ⟨none, ov⟩⟩ = false) ∧
    (∀ ot, isInternalComment ⟨some ⟨ot, none⟩⟩ = false) ∧
    (∀ ov, isInternalComment ⟨some ⟨some [], ov⟩⟩ = false) ∧
    (∀ ot, isInternalComment ⟨some ⟨ot, some []⟩⟩ = false) := by
  refine ⟨?_, ?_, ?_, ?_, ?_⟩
  · intro t v ht hg
    simp only [isInternalComment, falsyStr]
    split_ifs with h1 h2 h3
    · rfl
    · exact absurd (Option.some.inj h2) ht
    · exact absurd (Option.some.inj h3) hg
    · rfl
  · intro ov
    simp [isInternalComment, falsyStr]
  · intro ot
    cases ot with
    | none => simp [isInternalComment, falsyStr]
    | some t => simp [isInternalComment, falsyStr]
  · intro ov
    simp [isInternalComment, falsyStr]
  · intro ot
    cases ot with
    | none => simp [isInternalComment, falsyStr]
    | some t => simp [isInternalComment, falsyStr]

/-- Claim C10, witness. -/
theorem c10_witness :
    isInternalComment ⟨some ⟨some "public".toList, some "Administrators".toList⟩⟩ = false :=
  c10_fail_open.1 "public".toList "Administrators".toList (by decide) (by decide)



/-- Claim C6, counterexample. -/
theorem c6_counterexample :
    fetchWithRetry (fun _ => .abortError) REQUEST_CONFIG.retryAttempts 0 =
      (.requestTimeoutError 30000, 1, 0) ∧
    fetchWithRetry (fun _ => .netError "ECONNREFUSED") REQUEST_CONFIG.retryAttempts 0 =
      (.raised "ECONNREFUSED", 4, 3000) ∧
    FetchResult.raised "ECONNREFUSED" ≠ .requestTimeoutError 30000 := by
  refine ⟨by decide, by decide, by decide⟩

/-- Claim C6 (amended). -/
theorem c6_amended (oracle : Nat → FetchOutcome) (attempt retries : Nat) :
    (oracle attempt = .abortError →
      fetchWithRetry oracle retries attempt =
        (.requestTimeoutError REQUEST_CONFIG.timeout, 1, 0)) ∧
    ((∀ k, k ≤ retries → ∃ m, oracle (attempt + k) = .netError m) →
      ∃ m, oracle (attempt + retries) = .netError m ∧
        fetchWithRetry oracle retries attempt =
          (.raised m, retries + 1, retries * REQUEST_CONFIG.retryDelay)) := by
  constructor
  · intro h
    rw [fetchWithRetry, h]
  · induction retries generalizing attempt with
    | zero =>
      intro h
      obtain ⟨m, hm⟩ := h 0 (by omega)
      refine ⟨m, by simpa using hm, ?_⟩
      rw [fetchWithRetry, show oracle attempt = .netError m by simpa using hm]
      simp
    | succ r ihr =>
      intro h
      obtain ⟨m0, hm0⟩ := h 0 (by omega)
      obtain ⟨m, hm, hrec⟩ := ihr (attempt + 1) (fun k hk => by
        have := h (k + 1) (by omega)
        simpa [Nat.add_assoc, Nat.add_comm 1 k] using this)
      refine ⟨m, by simpa [Nat.add_assoc, Nat.add_comm 1 r] using hm, ?_⟩
      rw [fetchWithRetry, show oracle attempt = .netError m0 by simpa using hm0]
      simp only [hrec]
      refine Prod.ext rfl (Prod.ext rfl ?_)
      simp [Nat.succ_mul, Nat.add_comm]

/-- Claim C6, witness. -/
theorem c6_witness :
    fetchWithRetry (fun _ => .abortError) 3 0 = (.requestTimeoutError 30000, 1, 0) ∧
    ∃ m, (fun _ => FetchOutcome.netError "x") (0 + 3) = .netError m ∧
      fetchWithRetry (fun _ => .netError "x") 3 0 = (.raised m, 4, 3000) := by
  constructor
  · exact (c6_amended (fun _ => .abortError) 0 3).1 rfl
  · have h := (c6_amended (fun _ => .netError "x") 0 3).2 (fun k hk => ⟨"x", rfl⟩)
    simpa using h



/-- Claim C8. -/
theorem c8_summary_validation (body : CreateBody)
    (h : body.fields = none ∨ ∃ f, body.fields = some f ∧
      (f.summary = none ∨ (trimL (f.summary.getD [])).isEmpty = true)) :
    (∃ msg, msg ≠ [] ∧ createIssueHandler body = .validationError 400 msg) ∧
    (∃ m, createIssue body.fields = .thrown m) := by
  rcases h with h | ⟨f, hf, hs⟩
  · constructor
    · exact ⟨"O campo \"fields\" é obrigatório".toList, by decide, by
        simp [createIssueHandler, h]⟩
    · exact ⟨"Dados da issue são obrigatórios", by simp [createIssue, h]⟩
  · have hsum : (falsyStr f.summary || (trimL (f.summary.getD [])).isEmpty) = true := by
      rcases hs with hs | hs
      · simp [falsyStr, hs]
      · simp [hs]
    have htrim : (trimL (f.summary.getD [])).isEmpty = true := by
      rcases hs with hs | hs
      · simp [hs, trimL]
      · exact hs
    constructor
    · simp only [createIssueHandler, hf]
      split_ifs with h1 h2
      · exact ⟨"Projeto é obrigatório".toList, by decide, rfl⟩
      · exact ⟨"Tipo de issue é obrigatório".toList, by decide, rfl⟩
      · exact ⟨"Resumo é obrigatório".toList, by decide, by simp [hsum]⟩
    · rw [hf]
      simp only [createIssue]
      split_ifs with h1 h2
      · exact ⟨"Projeto é obrigatório", rfl⟩
      · exact ⟨"Tipo de issue é obrigatório", rfl⟩
      · exact ⟨"Resumo/título é obrigatório", by simp [htrim]⟩

/-- Claim C8, witness. -/
theorem c8_witness :
    (∃ msg, msg ≠ [] ∧ createIssueHandler
      ⟨some ⟨some (.str "SUP".toList), some (.str "10001".toList),
        some "   ".toList, none, none, none⟩, false⟩ = .validationError 400 msg) ∧
    (∃ m, createIssue (some ⟨some (.str "SUP".toList), some (.str "10001".toList),
        some "   ".toList, none, none, none⟩) = .thrown m) :=
  c8_summary_validation
    ⟨some ⟨some (.str "SUP".toList), some (.str "10001".toList),
      some "   ".toList, none, none, none⟩, false⟩
    (Or.inr ⟨_, rfl, Or.inr (by decide)⟩)



/-- Claim C9, counterexample. -/
theorem c9_counterexample :
    labelReqRoute "a_b".toList ≠
      "req-".toList ++ (lowerL "a_b".toList).map (fun c => if isLabelChar c then c else '-') ∧
    labelReqRoute "a_b".toList = "req-a-b".toList ∧
    emailToLabel "a_b".toList = "req-a_b".toList := by
  refine ⟨by decide, by decide, by decide⟩

/-- Claim C9 (amended). -/
theorem c9_amended :
    (∀ email, emailToLabel email = specDeriveLabel email) ∧
    emailToLabel "User.Name+tag@Example.COM".toList = "req-user-name-tag-example-com".toList ∧
    labelReqRoute "User.Name+tag@Example.COM".toList = "req-user-name-tag-example-com".toList ∧
    (emailToLabel "User.Name+tag@Example.COM".toList).all isLabelChar = true ∧
    (labelReqRoute "User.Name+tag@Example.COM".toList).all isLabelChar = true ∧
    (emailToLabel "User.Name+tag@Example.COM".toList).all
      (fun c => !(c = '@' || c = '.' || c = '+' || c.isUpper)) = true ∧
    (labelReqRoute "User.Name+tag@Example.COM".toList).all
      (fun c => !(c = '@' || c = '.' || c = '+' || c.isUpper)) = true ∧
    startsWithL (emailToLabel "User.Name+tag@Example.COM".toList) "req-".toList = true ∧
    startsWithL (labelReqRoute "User.Name+tag@Example.COM".toList) "req-".toList = true := by
  refine ⟨fun email => rfl, by decide, by decide, by decide, by decide, by decide, by decide,
    by decide, by decide⟩

end JiraTs
